import Mathlib

/-!
Verification of the Extraction & Qualification Pipeline of
`business_scraper.py` (class `SmallBusinessScraper`).

The Python source is shallowly embedded below.  Machine-level details that
cannot influence the verified claims are modelled as follows:

* Python strings are Lean `String`s (character lists); `str.lower` is
  modelled for ASCII letters, `str.strip` for ASCII whitespace.
* `json.loads` is modelled by an executable recursive-descent JSON
  reader (`jsonLoads`) over the standard JSON grammar (objects, arrays,
  strings with the common escapes, numbers kept as raw text, `true`,
  `false`, `null`).  Like Python's `dict`, objects keep the last binding
  of a duplicated key, at the position of its first occurrence.
* The two `ollama.chat` inference calls are fallible external calls; a
  call is modelled by its observable outcome, `Option String`:
  `none` is a raised inference error, `some t` a reply text `t`.
* Python truthiness of the values that actually flow through the code
  (`None`, `bool`, `str`, numbers, lists, dicts) is `jTruthy`/`pyFalsy`.
-/

/-! ## Python string helpers -/

/-- ASCII lower-casing of one character, as `str.lower` acts on ASCII. -/
def lowerChar (c : Char) : Char :=
  if 65 ≤ c.toNat ∧ c.toNat ≤ 90 then Char.ofNat (c.toNat + 32) else c

/-- Python `str.lower`, modelled on ASCII letters. -/
def pyLower (s : String) : String :=
  ⟨s.data.map lowerChar⟩

/-- ASCII whitespace, as removed by Python `str.strip()`. -/
def isPyWs (c : Char) : Bool :=
  c = ' ' ∨ c = '\t' ∨ c = '\n' ∨ c = '\r' ∨ c = '\x0b' ∨ c = '\x0c'

/-- Python `str.strip()`: drop whitespace from both ends. -/
def pyStrip (s : String) : String :=
  ⟨((s.data.dropWhile isPyWs).reverse.dropWhile isPyWs).reverse⟩

/-- Python `str.split(sep)` for a one-character separator: splits at every
occurrence, keeping empty pieces. -/
def pySplit (sep : Char) : List Char → List (List Char)
  | [] => [[]]
  | c :: cs =>
    if c = sep then [] :: pySplit sep cs
    else
      match pySplit sep cs with
      | [] => [[c]]
      | p :: ps => (c :: p) :: ps

/-- Substring test: does `pat` occur contiguously inside `l`?  Models the
Python `in` operator on strings and `re.search` of a literal pattern. -/
def hasSub (pat : List Char) : List Char → Bool
  | [] => pat.isEmpty
  | c :: cs => pat.isPrefixOf (c :: cs) || hasSub pat cs

/-- First-occurrence deduplication relative to an accumulator of already
emitted elements; `dedupFirst l = dedupAppend [] l` keeps the first
occurrence of each element, preserving order. -/
def dedupAppend (acc : List String) : List String → List String
  | [] => acc
  | x :: xs => if x ∈ acc then dedupAppend acc xs else dedupAppend (acc ++ [x]) xs

/-! ## JSON values and `json.loads` -/

/-- JSON values.  Numbers are kept as their raw source text: no claim in
this development depends on numeric semantics. -/
inductive Json where
  | null : Json
  | bool (b : Bool) : Json
  | str (s : String) : Json
  | num (raw : String) : Json
  | arr (elems : List Json) : Json
  | obj (fields : List (String × Json)) : Json

/-- First-occurrence association lookup (Python `dict` access: the parser
below keeps keys unique, so first = only occurrence). -/
def assocGet (l : List (String × Json)) (k : String) : Option Json :=
  match l with
  | [] => none
  | (k', v) :: t => if k' = k then some v else assocGet t k

/-- Python `dict` assignment: replace the value in place if the key
exists, otherwise append the binding. -/
def assocSet (l : List (String × Json)) (k : String) (v : Json) : List (String × Json) :=
  match l with
  | [] => [(k, v)]
  | (k', v') :: t => if k' = k then (k, v) :: t else (k', v') :: assocSet t k v

/-- Truthiness of a JSON-decoded Python value (`bool(x)`).  A number is
modelled as truthy when some digit other than `0` occurs in its raw text
(exact for every number the pipeline can meet; `0e5`-style texts, which
Python would call falsy, do not arise in the claims below). -/
def jTruthy : Json → Bool
  | Json.null => false
  | Json.bool b => b
  | Json.str s => !s.isEmpty
  | Json.num raw => raw.data.any (fun c => c.isDigit && c ≠ '0')
  | Json.arr l => !l.isEmpty
  | Json.obj l => !l.isEmpty

/-- Python `not d.get(k)`: true when the key is missing or its value is
falsy. -/
def pyFalsy (o : Option Json) : Bool :=
  match o with
  | none => true
  | some v => !jTruthy v

/-- JSON whitespace skipping. -/
def skipWs : List Char → List Char
  | c :: cs => if c = ' ' ∨ c = '\t' ∨ c = '\n' ∨ c = '\r' then skipWs cs else c :: cs
  | [] => []

/-- Decode one hex digit. -/
def hexVal (c : Char) : Option Nat :=
  if '0' ≤ c ∧ c ≤ '9' then some (c.toNat - 48)
  else if 'a' ≤ c ∧ c ≤ 'f' then some (c.toNat - 87)
  else if 'A' ≤ c ∧ c ≤ 'F' then some (c.toNat - 70)
  else none

/-- Body of a JSON string after the opening quote: characters up to the
closing quote, with the standard escapes (`\uXXXX` yields the code point
directly; the pipeline never feeds surrogate pairs). -/
def parseStrAux : List Char → Option (List Char × List Char)
  | [] => none
  | '"' :: rest => some ([], rest)
  | '\\' :: e :: rest =>
    match e with
    | '"' => (parseStrAux rest).map (fun p => ( '"' :: p.1, p.2))
    | '\\' => (parseStrAux rest).map (fun p => ( '\\' :: p.1, p.2))
    | '/' => (parseStrAux rest).map (fun p => ( '/' :: p.1, p.2))
    | 'n' => (parseStrAux rest).map (fun p => ( '\n' :: p.1, p.2))
    | 't' => (parseStrAux rest).map (fun p => ( '\t' :: p.1, p.2))
    | 'r' => (parseStrAux rest).map (fun p => ( '\r' :: p.1, p.2))
    | 'b' => (parseStrAux rest).map (fun p => ( '\x08' :: p.1, p.2))
    | 'f' => (parseStrAux rest).map (fun p => ( '\x0c' :: p.1, p.2))
    | 'u' =>
      match rest with
      | h1 :: h2 :: h3 :: h4 :: rest' =>
        match hexVal h1, hexVal h2, hexVal h3, hexVal h4 with
        | some a, some b, some c, some d =>
          (parseStrAux rest').map
            (fun p => ( Char.ofNat (((a * 16 + b) * 16 + c) * 16 + d) :: p.1, p.2))
        | _, _, _, _ => none
      | _ => none
    | _ => none
  | c :: rest =>
    if c.toNat < 32 then none
    else (parseStrAux rest).map (fun p => (c :: p.1, p.2))

/-- Digit run for number decoding. -/
def takeDigitRun (l : List Char) : List Char × List Char :=
  (l.takeWhile Char.isDigit, l.dropWhile Char.isDigit)

/-- A JSON number starting at the head of the input: `-?(0|[1-9][0-9]*)`
with optional fraction and exponent; returns its raw text. -/
def parseNum (l : List Char) : Option (List Char × List Char) :=
  let (sign, l1) :=
    match l with
    | '-' :: t => (['-'], t)
    | _ => (([] : List Char), l)
  match l1 with
  | c :: cs =>
    if c = '0' then
      parseNumFrac (sign ++ [c]) cs
    else if c.isDigit then
      let (ds, l2) := takeDigitRun cs
      parseNumFrac (sign ++ c :: ds) l2
    else none
  | [] => none
where
  parseNumFrac (pre : List Char) (l : List Char) : Option (List Char × List Char) :=
    let (pre1, l1) :=
      match l with
      | '.' :: c :: cs =>
        if c.isDigit then
          let (ds, l2) := takeDigitRun cs
          (pre ++ '.' :: c :: ds, l2)
        else (pre, l)
      | _ => (pre, l)
    match l1 with
    | e :: t =>
      if e = 'e' ∨ e = 'E' then
        match t with
        | s :: c :: cs =>
          if (s = '+' ∨ s = '-') ∧ c.isDigit then
            let (ds, l2) := takeDigitRun cs
            some (pre1 ++ e :: s :: c :: ds, l2)
          else if s.isDigit then
            let (ds, l2) := takeDigitRun (c :: cs)
            some (pre1 ++ e :: s :: ds, l2)
          else none
        | [s] =>
          if s.isDigit then some (pre1 ++ [e, s], []) else none
        | [] => none
      else some (pre1, l1)
    | [] => some (pre1, [])

mutual

/-- One JSON value at the head of the input (after optional whitespace),
returning the value and the unconsumed rest.  `fuel` bounds recursion
depth; `jsonLoads` supplies more fuel than any input can use. -/
def parseVal : Nat → List Char → Option (Json × List Char)
  | 0, _ => none
  | fuel + 1, l =>
    match skipWs l with
    | [] => none
    | c :: cs =>
      if c = '"' then
        match parseStrAux cs with
        | some (s, r) => some (Json.str ⟨s⟩, r)
        | none => none
      else if c = '\x7b' then parseObjRest fuel cs
      else if c = '[' then parseArrRest fuel cs
      else if c = 't' then
        match cs with
        | 'r' :: 'u' :: 'e' :: r => some (Json.bool true, r)
        | _ => none
      else if c = 'f' then
        match cs with
        | 'a' :: 'l' :: 's' :: 'e' :: r => some (Json.bool false, r)
        | _ => none
      else if c = 'n' then
        match cs with
        | 'u' :: 'l' :: 'l' :: r => some (Json.null, r)
        | _ => none
      else
        match parseNum (c :: cs) with
        | some (raw, r) => some (Json.num ⟨raw⟩, r)
        | none => none

/-- Rest of an object after its opening brace. -/
def parseObjRest : Nat → List Char → Option (Json × List Char)
  | 0, _ => none
  | fuel + 1, l =>
    match skipWs l with
    | '\x7d' :: r => some (Json.obj [], r)
    | l' => parseMembers fuel l' []

/-- Members of an object, accumulated with `dict` semantics. -/
def parseMembers : Nat → List Char → List (String × Json) → Option (Json × List Char)
  | 0, _, _ => none
  | fuel + 1, l, acc =>
    match skipWs l with
    | '"' :: cs =>
      match parseStrAux cs with
      | some (k, r1) =>
        match skipWs r1 with
        | ':' :: r2 =>
          match parseVal fuel r2 with
          | some (v, r3) =>
            match skipWs r3 with
            | ',' :: r4 => parseMembers fuel r4 (assocSet acc ⟨k⟩ v)
            | '\x7d' :: r4 => some (Json.obj (assocSet acc ⟨k⟩ v), r4)
            | _ => none
          | none => none
        | _ => none
      | none => none
    | _ => none

/-- Rest of an array after its opening bracket. -/
def parseArrRest : Nat → List Char → Option (Json × List Char)
  | 0, _ => none
  | fuel + 1, l =>
    match skipWs l with
    | ']' :: r => some (Json.arr [], r)
    | l' => parseElems fuel l' []

/-- Elements of an array. -/
def parseElems : Nat → List Char → List Json → Option (Json × List Char)
  | 0, _, _ => none
  | fuel + 1, l, acc =>
    match parseVal fuel l with
    | some (v, r) =>
      match skipWs r with
      | ',' :: r2 => parseElems fuel r2 (acc ++ [v])
      | ']' :: r2 => some (Json.arr (acc ++ [v]), r2)
      | _ => none
    | none => none

end

/-- Python `json.loads`: one JSON value spanning the whole input (modulo
surrounding whitespace); anything else raises, modelled as `none`. -/
def jsonLoads (s : String) : Option Json :=
  match parseVal (4 * s.data.length + 8) s.data with
  | some (j, rest) => if (skipWs rest).isEmpty then some j else none
  | none => none

/-! ## The reply-to-JSON step shared by both model calls

`re.search(r'\x7b.*\x7d', result_text, re.DOTALL)` is a greedy match: it
spans from the first `\x7b` that has some `\x7d` after it, up to the last
`\x7d` of the whole text. -/

/-- Everything up to and including the last `\x7d` of the list (the list is
assumed to contain one; otherwise it is returned whole). -/
def upToLastRBrace (l : List Char) : List Char :=
  (l.reverse.dropWhile (fun c => c ≠ '\x7d')).reverse

/-- The span matched by the greedy regex `\x7b.*\x7d` under `re.DOTALL`,
if any: from the first opening brace followed somewhere by a closing
brace, to the last closing brace of the text. -/
def greedyBraceMatch : List Char → Option (List Char)
  | [] => none
  | c :: cs =>
    if c = '\x7b' ∧ cs.contains '\x7d' then some (c :: upToLastRBrace cs)
    else greedyBraceMatch cs

/-- Lines 261-263 and 440-442 of the source: locate the regex span in the
model's reply and decode it with `json.loads`; `none` when the regex does
not match or decoding raises. -/
def extractJson (text : String) : Option Json :=
  match greedyBraceMatch text.data with
  | some span => jsonLoads ⟨span⟩
  | none => none

/-! ## Qualification classifier (`is_small_independent_business`) -/

/-- Lines 252-283 of the source.  The record argument of the Python method
only shapes the prompt; the decision is a function of the inference
call's outcome, which is the argument here (`none` = the call raised).
A raised call, a reply without a regex match, and a reply whose span
fails to decode all return `false`; a decoded non-dict would raise on
`.get` and be caught, also returning `false`.  Otherwise the verdict is
`get('is_small_independent', False) and get('is_service_based', False)
and not get('is_chain_or_franchise', True)`, by truthiness. -/
def is_small_independent_business (reply : Option String) : Bool :=
  match reply with
  | none => false
  | some text =>
    match extractJson text with
    | some (Json.obj fields) =>
      jTruthy ((assocGet fields "is_small_independent").getD (Json.bool false)) &&
      jTruthy ((assocGet fields "is_service_based").getD (Json.bool false)) &&
      !jTruthy ((assocGet fields "is_chain_or_franchise").getD (Json.bool true))
    | some _ => false
    | none => false

/-! ## Contact signal extractor: email validation (lines 299-345) -/

/-- The TLD allow-list of line 335. -/
def validTlds : List String :=
  ["com", "net", "org", "edu", "gov", "co", "us", "io", "biz", "info"]

/-- The file/image extension alternatives of the reject pattern on
line 315; the pattern fires on a dot followed by any of these, anywhere
in the email. -/
def fileExts : List String :=
  ["png", "jpg", "jpeg", "gif", "svg", "webp", "pdf", "js", "css", "woff", "ttf", "ico"]

/-- Lines 315-337: the validation applied to one already lower-cased and
stripped candidate email. -/
def isValidEmail (e : String) : Bool :=
  !(fileExts.any (fun ext => hasSub ('.' :: ext.data) e.data)) &&
  !(hasSub "@2x".data e.data) && !(hasSub "@3x".data e.data) &&
  e.data.contains '@' &&
  (match pySplit '@' e.data with
   | [_, dom] =>
     decide (4 ≤ dom.length) && !(dom.contains '/') && !(dom.contains '\\') &&
     validTlds.any (fun t => ( '.' :: t.data).isSuffixOf dom)
   | _ => false)

/-- Lines 308-339: normalize each candidate (`email.lower().strip()`) and
keep the ones passing validation. -/
def valid_emails (cands : List String) : List String :=
  (cands.map (fun c => pyStrip (pyLower c))).filter isValidEmail

/-- Line 341, `list(set(valid_emails))`: the same members, duplicate-free.
Python's set order is unspecified; first-occurrence order stands in
for it (no claim depends on the order). -/
def unique_emails (cands : List String) : List String :=
  dedupAppend [] (valid_emails cands)

/-- The generic-role markers of lines 344-345; the code tests each with
the substring operator `in` against the whole email. -/
def genericMarkers : List String :=
  ["info@", "contact@", "sales@", "support@", "hello@", "admin@", "service@", "office@"]

/-- `any(prefix in e for prefix in [...])` of lines 344-345. -/
def hasGenericMarker (e : String) : Bool :=
  genericMarkers.any (fun p => hasSub p.data e.data)

/-- Line 344. -/
def owner_emails (ue : List String) : List String :=
  ue.filter (fun e => !hasGenericMarker e)

/-- Line 345. -/
def business_emails (ue : List String) : List String :=
  ue.filter (fun e => hasGenericMarker e)

/-! ## Contact signal extractor: phones (lines 348-371) -/

/-- The regex whitespace class `\s`, ASCII part. -/
def isWsChar (c : Char) : Bool :=
  c = ' ' ∨ c = '\t' ∨ c = '\n' ∨ c = '\r' ∨ c = '\x0b' ∨ c = '\x0c'

/-- The separator class `[-.\s]` of the phone patterns. -/
def isSepChar (c : Char) : Bool :=
  c = '-' ∨ c = '.' ∨ isWsChar c

/-- Optional single character of a class (regex `x?`).  The phone
patterns only make a character optional when it cannot be a digit, and
every position after it requires a digit, so committing greedily here is
exactly Python's backtracking behaviour for these patterns. -/
def optCh (p : Char → Bool) (l : List Char) : List Char × List Char :=
  match l with
  | c :: cs => if p c then ([c], cs) else ([], l)
  | [] => ([], [])

/-- Required single character of a class. -/
def reqCh (p : Char → Bool) (l : List Char) : Option (List Char × List Char) :=
  match l with
  | c :: cs => if p c then some ([c], cs) else none
  | [] => none

/-- Exactly `n` digits (regex `\d{n}`). -/
def nDigits : Nat → List Char → Option (List Char × List Char)
  | 0, l => some ([], l)
  | _ + 1, [] => none
  | n + 1, c :: cs =>
    if c.isDigit then (nDigits n cs).map (fun p => (c :: p.1, p.2)) else none

/-- Phone pattern 1 (line 349): regex `\(?\d\x7b3\x7d\)?[-.\s]?\d\x7b3\x7d[-.\s]?\d\x7b4\x7d`. -/
def phonePat1 (l : List Char) : Option (List Char × List Char) :=
  let (o1, l1) := optCh (fun c => c = '(') l
  match nDigits 3 l1 with
  | none => none
  | some (d1, l2) =>
    let (o2, l3) := optCh (fun c => c = ')') l2
    let (s1, l4) := optCh isSepChar l3
    match nDigits 3 l4 with
    | none => none
    | some (d2, l5) =>
      let (s2, l6) := optCh isSepChar l5
      match nDigits 4 l6 with
      | none => none
      | some (d3, l7) => some (o1 ++ d1 ++ o2 ++ s1 ++ d2 ++ s2 ++ d3, l7)

/-- Phone pattern 2 (line 350): regex `\d\x7b3\x7d[-.\s]\d\x7b3\x7d[-.\s]\d\x7b4\x7d`. -/
def phonePat2 (l : List Char) : Option (List Char × List Char) :=
  match nDigits 3 l with
  | none => none
  | some (d1, l1) =>
    match reqCh isSepChar l1 with
    | none => none
    | some (s1, l2) =>
      match nDigits 3 l2 with
      | none => none
      | some (d2, l3) =>
        match reqCh isSepChar l3 with
        | none => none
        | some (s2, l4) =>
          match nDigits 4 l4 with
          | none => none
          | some (d3, l5) => some (d1 ++ s1 ++ d2 ++ s2 ++ d3, l5)

/-- Phone pattern 3 (line 351): regex `\(\d\x7b3\x7d\)\s?\d\x7b3\x7d-\d\x7b4\x7d`. -/
def phonePat3 (l : List Char) : Option (List Char × List Char) :=
  match reqCh (fun c => c = '(') l with
  | none => none
  | some (o1, l1) =>
    match nDigits 3 l1 with
    | none => none
    | some (d1, l2) =>
      match reqCh (fun c => c = ')') l2 with
      | none => none
      | some (o2, l3) =>
        let (s1, l4) := optCh isWsChar l3
        match nDigits 3 l4 with
        | none => none
        | some (d2, l5) =>
          match reqCh (fun c => c = '-') l5 with
          | none => none
          | some (s2, l6) =>
            match nDigits 4 l6 with
            | none => none
            | some (d3, l7) => some (o1 ++ d1 ++ o2 ++ s1 ++ d2 ++ s2 ++ d3, l7)

/-- Scanner behind `re.findall`: leftmost, non-overlapping matches, the
scan resuming after each match and advancing one character on failure.
The fuel equals the number of scan steps, each of which consumes at
least one character; the guard on `rest` is for termination only and
never fires for the phone patterns, which always consume. -/
def findAllGo (m : List Char → Option (List Char × List Char)) :
    Nat → List Char → List (List Char)
  | 0, _ => []
  | _ + 1, [] => []
  | fuel + 1, c :: cs =>
    match m (c :: cs) with
    | some (mt, rest) =>
      if rest.length ≤ cs.length then mt :: findAllGo m fuel rest
      else findAllGo m fuel cs
    | none => findAllGo m fuel cs

/-- `re.findall(pattern, text)` for a group-free pattern. -/
def findAll (m : List Char → Option (List Char × List Char)) (l : List Char) :
    List (List Char) :=
  findAllGo m (l.length + 1) l

/-- Lines 354-356: the three pattern scans over the raw page markup,
concatenated in pattern order. -/
def phoneMatches (html : String) : List (List Char) :=
  findAll phonePat1 html.data ++ findAll phonePat2 html.data ++ findAll phonePat3 html.data

/-- Line 367: `f"(\x7bdigits[:3]\x7d) \x7bdigits[3:6]\x7d-\x7bdigits[6:]\x7d"`. -/
def formatPhone (ds : List Char) : String :=
  ⟨ '(' :: ds.take 3 ++ ')' :: ' ' :: (ds.drop 3).take 3 ++ '-' :: ds.drop 6⟩

/-- Lines 359-369: strip non-digits from each match, keep exactly-10-digit
ones, format canonically, skip formatted strings already collected. -/
def cleanPhonesGo (acc : List String) : List (List Char) → List String
  | [] => acc
  | p :: ps =>
    let ds := p.filter Char.isDigit
    if ds.length = 10 then
      if formatPhone ds ∈ acc then cleanPhonesGo acc ps
      else cleanPhonesGo (acc ++ [formatPhone ds]) ps
    else cleanPhonesGo acc ps

/-- The `cleaned_phones` list of lines 359-369 for a given match list. -/
def cleaned_phones (ms : List (List Char)) : List String :=
  cleanPhonesGo [] ms

/-- Lines 348-369 end to end: formatted phones of a page. -/
def extractPhones (html : String) : List String :=
  cleaned_phones (phoneMatches html)

/-- The canonical shape `^\(\d\x7b3\x7d\) \d\x7b3\x7d-\d\x7b4\x7d$` as a check on a
formatted phone string. -/
def phoneShape (s : String) : Bool :=
  match s.data with
  | '(' :: a :: b :: c :: ')' :: ' ' :: d :: e :: f :: '-' :: g :: h :: i :: j :: [] =>
    a.isDigit && b.isDigit && c.isDigit && d.isDigit && e.isDigit &&
    f.isDigit && g.isDigit && h.isDigit && i.isDigit && j.isDigit
  | _ => false

/-! ## Structured extraction adapter (`extract_business_info`, lines 295-474) -/

/-- The deterministic signals feeding the adapter's merge and degraded
paths: `business_emails`, `owner_emails`, `main_phone`, `main_address`
as computed by lines 299-376. -/
structure ContactSignals where
  businessEmails : List String
  ownerEmails : List String
  mainPhone : Option String
  mainAddress : Option String

/-- A Python optional string as the JSON/dict value it is stored as. -/
def optStrJson : Option String → Json
  | some s => Json.str s
  | none => Json.null

/-- The signal-only record of lines 458-464 and 468-474: `source_url`
plus the four signal contact fields (`None` when the signal is absent). -/
def degradedRecord (sig : ContactSignals) (url : String) : Json :=
  Json.obj [("source_url", Json.str url),
            ("business_email", optStrJson sig.businessEmails.head?),
            ("owner_email", optStrJson sig.ownerEmails.head?),
            ("phone", optStrJson sig.mainPhone),
            ("address", optStrJson sig.mainAddress)]

/-- One back-fill statement of lines 446-449, e.g.
`if not business_data.get('business_email') and business_emails: ...`:
the signal is a list, truthy when non-empty, and its first element is
written only over a missing or falsy field. -/
def fillFromList (f : List (String × Json)) (key : String) (sigList : List String) :
    List (String × Json) :=
  match sigList with
  | e :: _ => if pyFalsy (assocGet f key) then assocSet f key (Json.str e) else f
  | [] => f

/-- One back-fill statement of lines 450-453, e.g.
`if not business_data.get('phone') and main_phone: ...`: the signal is an
optional string, truthy when present and non-empty. -/
def fillFromOpt (f : List (String × Json)) (key : String) (sigOpt : Option String) :
    List (String × Json) :=
  match sigOpt with
  | some p =>
    if pyFalsy (assocGet f key) && !p.isEmpty then assocSet f key (Json.str p) else f
  | none => f

/-- Lines 443-453: stamp `source_url`, then back-fill the four contact
fields from the signals, in source order. -/
def mergeFields (sig : ContactSignals) (url : String) (fields : List (String × Json)) :
    List (String × Json) :=
  fillFromOpt
    (fillFromOpt
      (fillFromList
        (fillFromList (assocSet fields "source_url" (Json.str url))
          "business_email" sig.businessEmails)
        "owner_email" sig.ownerEmails)
      "phone" sig.mainPhone)
    "address" sig.mainAddress

/-- Lines 431-474.  The page html enters only through the signals and the
prompt; the inference call's outcome is the `reply` argument (`none` = the
call raised).  A raised call, an unmatched reply and an undecodable span
all land on the signal-only record; a decoded non-dict would raise on item
assignment and be caught by the same handler (unreachable here, since a
matched span starts with an opening brace and so decodes to a dict). -/
def extract_business_info (sig : ContactSignals) (url : String) (reply : Option String) :
    Json :=
  match reply with
  | none => degradedRecord sig url
  | some text =>
    match extractJson text with
    | some (Json.obj fields) => Json.obj (mergeFields sig url fields)
    | some _ => degradedRecord sig url
    | none => degradedRecord sig url

/-- Python `dict.get(k)` on a record. -/
def jGet : Json → String → Option Json
  | Json.obj l, k => assocGet l k
  | _, _ => none

/-! ## Pipeline orchestrator (`scrape_businesses`, lines 476-517) -/

/-- The per-URL behaviour of the external collaborators: the fetch
outcome (`none` = `scrape_business_page` returned `None`), the signals
the page yields, and the two inference replies. -/
structure UrlEnv where
  fetchResult : Option String
  sig : ContactSignals
  extractReply : Option String
  classifyReply : Option String

/-- Observable side-effecting steps of one orchestrator run, in order. -/
inductive Event where
  | fetchUrl (u : String)
  | extractCall (u : String)
  | classifyCall (u : String)
  | pacingDelay (u : String)
deriving DecidableEq

/-- Lines 492-515, one loop iteration: fetch; `continue` on a falsy page;
extract; `continue` on a falsy `business_name`; classify and collect;
`time.sleep(3)`.  Both `continue` statements jump past the sleep.
Returns the record appended (if any) and the steps performed. -/
def processUrl (env : String → UrlEnv) (url : String) : Option Json × List Event :=
  match (env url).fetchResult with
  | none => (none, [Event.fetchUrl url])
  | some h =>
    if h.isEmpty then (none, [Event.fetchUrl url])
    else
      let bd := extract_business_info (env url).sig url (env url).extractReply
      if pyFalsy (jGet bd "business_name") then
        (none, [Event.fetchUrl url, Event.extractCall url])
      else if is_small_independent_business (env url).classifyReply then
        (some bd,
         [Event.fetchUrl url, Event.extractCall url, Event.classifyCall url,
          Event.pacingDelay url])
      else
        (none,
         [Event.fetchUrl url, Event.extractCall url, Event.classifyCall url,
          Event.pacingDelay url])

/-- Lines 476-517: the sequential batch loop, returning the qualified
records and the full step trace. -/
def scrape_businesses (env : String → UrlEnv) : List String → List Json × List Event
  | [] => ([], [])
  | u :: us =>
    let pr := processUrl env u
    let rest := scrape_businesses env us
    ((match pr.1 with | some b => b :: rest.1 | none => rest.1), pr.2 ++ rest.2)

/-! ## Definitions following the spec's words (for refinement comparison) -/

/-- Stated from the spec, for comparison with `extractJson`: locate the
first balanced top-level JSON object within the free-form reply and
decode it (commentary before the object is skipped; a position is the
start of the object when a complete JSON value can be read from it). -/
def firstBalancedJsonObject : List Char → Option Json
  | [] => none
  | c :: cs =>
    if c = '\x7b' then
      match parseVal (4 * (c :: cs).length + 8) (c :: cs) with
      | some (j, _) => some j
      | none => firstBalancedJsonObject cs
    else firstBalancedJsonObject cs

/-- The local part of an email: everything before the first `@`. -/
def localPart (e : String) : List Char :=
  e.data.takeWhile (fun c => c ≠ '@')

/-- The generic-role names the spec partitions by. -/
def genericLocalNames : List String :=
  ["info", "contact", "sales", "support", "hello", "admin", "service", "office"]

/-- Stated from the spec, for comparison with `hasGenericMarker`: the
local part starts with one of the generic-role names. -/
def specIsBusinessEmail (e : String) : Bool :=
  genericLocalNames.any (fun p => p.data.isPrefixOf (localPart e))

/-- A field is present on a record when its key is bound to a non-null
value (the prompt makes the model write `null` for a missing field). -/
def fieldPresent (j : Json) (k : String) : Bool :=
  match jGet j k with
  | some Json.null => false
  | some _ => true
  | none => false

/-! ## Concrete fixtures used by witnesses and counterexamples -/

/-- A reply whose verdict accepts: all three booleans as required. -/
def acceptReplyText : String :=
  "\x7b\"is_small_independent\": true, \"is_service_based\": true, \"is_chain_or_franchise\": false\x7d"

/-- Empty signals. -/
def sigEmpty : ContactSignals := ⟨[], [], none, none⟩

/-- An environment whose every fetch fails. -/
def envFetchFail : String → UrlEnv := fun _ => ⟨none, sigEmpty, none, none⟩

/-- The spec's three-URL scenario: fetch of `u1` fails, `u2` yields a
record with no business name, `u3` yields a named record the classifier
accepts. -/
def env3 : String → UrlEnv := fun u =>
  if u = "u1" then ⟨none, sigEmpty, none, none⟩
  else if u = "u2" then
    ⟨some "<html>page2</html>", sigEmpty, some "\x7b\"description\": \"d\"\x7d",
     some acceptReplyText⟩
  else
    ⟨some "<html>page3</html>", sigEmpty,
     some "\x7b\"business_name\": \"Ace Plumbing\"\x7d", some acceptReplyText⟩

/-- An environment whose page extracts to a record whose `business_name`
is present but empty, with an accepting classifier reply. -/
def envNameEmpty : String → UrlEnv := fun _ =>
  ⟨some "<p>x</p>", sigEmpty, some "\x7b\"business_name\": \"\"\x7d", some acceptReplyText⟩

/-! ## Helper lemmas -/

theorem charOfNat_toNat_upper (n : Nat) (h1 : 65 ≤ n) (h2 : n ≤ 90) :
    (Char.ofNat (n + 32)).toNat = n + 32 := by
  interval_cases n <;> decide

theorem lowerChar_not_upper (c : Char) :
    ¬(65 ≤ (lowerChar c).toNat ∧ (lowerChar c).toNat ≤ 90) := by
  unfold lowerChar
  split
  · rename_i h
    rw [charOfNat_toNat_upper c.toNat h.1 h.2]
    omega
  · rename_i h
    exact h

theorem mem_pyStrip (s : String) (c : Char) (h : c ∈ (pyStrip s).data) : c ∈ s.data := by
  simp only [pyStrip] at h
  rw [List.mem_reverse] at h
  have h2 := (List.dropWhile_sublist isPyWs).mem h
  rw [List.mem_reverse] at h2
  exact (List.dropWhile_sublist isPyWs).mem h2

theorem noUpper_norm (s : String) (c : Char) (h : c ∈ (pyStrip (pyLower s)).data) :
    ¬(65 ≤ c.toNat ∧ c.toNat ≤ 90) := by
  have h1 := mem_pyStrip _ _ h
  simp only [pyLower] at h1
  rw [List.mem_map] at h1
  obtain ⟨c₀, _, rfl⟩ := h1
  exact lowerChar_not_upper c₀

theorem pySplit_ne_nil (sep : Char) (l : List Char) : pySplit sep l ≠ [] := by
  cases l with
  | nil => simp [pySplit]
  | cons c cs =>
    simp only [pySplit]
    split
    · simp
    · cases h : pySplit sep cs with
      | nil => simp
      | cons p ps => simp

theorem pySplit_singleton (sep : Char) :
    ∀ l x : List Char, pySplit sep l = [x] → l = x ∧ sep ∉ x := by
  intro l
  induction l with
  | nil =>
    intro x h
    simp only [pySplit, List.cons.injEq] at h
    exact ⟨h.1, by rw [← h.1]; simp⟩
  | cons c cs ih =>
    intro x h
    simp only [pySplit] at h
    by_cases hc : c = sep
    · rw [if_pos hc] at h
      simp only [List.cons.injEq] at h
      exact absurd h.2 (pySplit_ne_nil sep cs)
    · rw [if_neg hc] at h
      cases hps : pySplit sep cs with
      | nil => exact absurd hps (pySplit_ne_nil sep cs)
      | cons p ps =>
        rw [hps] at h
        simp only [List.cons.injEq] at h
        obtain ⟨hx, hps0⟩ := h
        subst hps0
        obtain ⟨hcs, hsp⟩ := ih p hps
        subst hcs
        refine ⟨hx, ?_⟩
        rw [← hx]
        intro hmem
        rcases List.mem_cons.mp hmem with h' | h'
        · exact hc h'.symm
        · exact hsp h'

theorem pySplit_pair (sep : Char) :
    ∀ l a b : List Char, pySplit sep l = [a, b] →
      l = a ++ sep :: b ∧ sep ∉ a ∧ sep ∉ b := by
  intro l
  induction l with
  | nil =>
    intro a b h
    simp [pySplit] at h
  | cons c cs ih =>
    intro a b h
    simp only [pySplit] at h
    by_cases hc : c = sep
    · rw [if_pos hc] at h
      simp only [List.cons.injEq] at h
      obtain ⟨ha, hb⟩ := h
      obtain ⟨hcs, hsb⟩ := pySplit_singleton sep cs b hb
      subst ha hcs hc
      exact ⟨rfl, by simp, hsb⟩
    · rw [if_neg hc] at h
      cases hps : pySplit sep cs with
      | nil => exact absurd hps (pySplit_ne_nil sep cs)
      | cons p ps =>
        rw [hps] at h
        simp only [List.cons.injEq] at h
        obtain ⟨ha, hps0⟩ := h
        subst hps0
        obtain ⟨hcs, hsp, hsb⟩ := ih p b hps
        subst hcs
        rw [← ha]
        refine ⟨by simp, ?_, hsb⟩
        intro hmem
        rcases List.mem_cons.mp hmem with h' | h'
        · exact hc h'.symm
        · exact hsp h'

theorem mem_dedupAppend (l : List String) :
    ∀ acc x, x ∈ dedupAppend acc l → x ∈ acc ∨ x ∈ l := by
  induction l with
  | nil => intro acc x h; exact Or.inl h
  | cons y ys ih =>
    intro acc x h
    simp only [dedupAppend] at h
    split at h
    · rcases ih acc x h with h' | h'
      · exact Or.inl h'
      · exact Or.inr (List.mem_cons_of_mem _ h')
    · rcases ih (acc ++ [y]) x h with h' | h'
      · rcases List.mem_append.mp h' with h'' | h''
        · exact Or.inl h''
        · simp only [List.mem_singleton] at h''
          subst h''
          exact Or.inr (List.mem_cons_self _ _)
      · exact Or.inr (List.mem_cons_of_mem _ h')

theorem nodup_dedupAppend (l : List String) :
    ∀ acc, acc.Nodup → (dedupAppend acc l).Nodup := by
  induction l with
  | nil => intro acc h; exact h
  | cons y ys ih =>
    intro acc h
    simp only [dedupAppend]
    split
    · exact ih acc h
    · rename_i hy
      refine ih (acc ++ [y]) (List.Nodup.append h (List.nodup_singleton y) ?_)
      intro a ha hb
      simp only [List.mem_singleton] at hb
      subst hb
      exact hy ha

theorem assocGet_assocSet_self (l : List (String × Json)) (k : String) (v : Json) :
    assocGet (assocSet l k v) k = some v := by
  induction l with
  | nil => simp [assocSet, assocGet]
  | cons p t ih =>
    simp only [assocSet]
    split
    · simp [assocGet]
    · simp only [assocGet]
      rename_i hne
      rw [if_neg hne]
      exact ih

theorem assocGet_assocSet_ne (l : List (String × Json)) (k k' : String) (v : Json)
    (h : k' ≠ k) : assocGet (assocSet l k v) k' = assocGet l k' := by
  induction l with
  | nil =>
    simp only [assocSet, assocGet]
    rw [if_neg (fun hh : k = k' => h hh.symm)]
  | cons p t ih =>
    obtain ⟨k1, v1⟩ := p
    simp only [assocSet]
    split
    · rename_i heq
      simp only [assocGet]
      rw [if_neg (fun hh : k = k' => h hh.symm),
        if_neg (fun hh : k1 = k' => h (hh.symm.trans heq))]
    · simp only [assocGet]
      split
      · rfl
      · exact ih

theorem assocGet_fillFromList_ne (f : List (String × Json)) (key k' : String)
    (sl : List String) (h : k' ≠ key) :
    assocGet (fillFromList f key sl) k' = assocGet f k' := by
  cases sl with
  | nil => rfl
  | cons e es =>
    simp only [fillFromList]
    split
    · exact assocGet_assocSet_ne f key k' (Json.str e) h
    · rfl

theorem assocGet_fillFromOpt_ne (f : List (String × Json)) (key k' : String)
    (so : Option String) (h : k' ≠ key) :
    assocGet (fillFromOpt f key so) k' = assocGet f k' := by
  cases so with
  | none => rfl
  | some p =>
    simp only [fillFromOpt]
    split
    · exact assocGet_assocSet_ne f key k' (Json.str p) h
    · rfl

theorem fillFromList_keep (f : List (String × Json)) (key : String) (sl : List String)
    (v : Json) (hv : jTruthy v = true) (hget : assocGet f key = some v) :
    assocGet (fillFromList f key sl) key = some v := by
  cases sl with
  | nil => exact hget
  | cons e es =>
    simp only [fillFromList]
    rw [if_neg ?_]
    · exact hget
    · rw [hget]
      simp [pyFalsy, hv]

theorem fillFromList_fill (f : List (String × Json)) (key : String) (e : String)
    (es : List String) (hfal : pyFalsy (assocGet f key) = true) :
    assocGet (fillFromList f key (e :: es)) key = some (Json.str e) := by
  simp only [fillFromList]
  rw [if_pos hfal]
  exact assocGet_assocSet_self f key (Json.str e)

theorem fillFromOpt_keep (f : List (String × Json)) (key : String) (so : Option String)
    (v : Json) (hv : jTruthy v = true) (hget : assocGet f key = some v) :
    assocGet (fillFromOpt f key so) key = some v := by
  cases so with
  | none => exact hget
  | some p =>
    simp only [fillFromOpt]
    rw [if_neg ?_]
    · exact hget
    · rw [hget]
      simp [pyFalsy, hv]

theorem fillFromOpt_fill (f : List (String × Json)) (key : String) (p : String)
    (hp : p.isEmpty = false) (hfal : pyFalsy (assocGet f key) = true) :
    assocGet (fillFromOpt f key (some p)) key = some (Json.str p) := by
  simp only [fillFromOpt]
  rw [if_pos (by simp [hfal, hp])]
  exact assocGet_assocSet_self f key (Json.str p)

theorem cleanPhonesGo_eq (ms : List (List Char)) :
    ∀ acc, cleanPhonesGo acc ms = dedupAppend acc
      ((ms.filter (fun p => decide ((p.filter Char.isDigit).length = 10))).map
        (fun p => formatPhone (p.filter Char.isDigit))) := by
  induction ms with
  | nil => intro acc; rfl
  | cons p ps ih =>
    intro acc
    simp only [cleanPhonesGo, List.filter_cons]
    by_cases h : (p.filter Char.isDigit).length = 10
    · rw [if_pos h, if_pos (decide_eq_true h)]
      simp only [List.map_cons, dedupAppend]
      split
      · exact ih acc
      · exact ih (acc ++ [formatPhone (p.filter Char.isDigit)])
    · rw [if_neg h, if_neg (by simpa using h)]
      exact ih acc

theorem nodup_cleanPhonesGo (ms : List (List Char)) :
    ∀ acc, acc.Nodup → (cleanPhonesGo acc ms).Nodup := by
  intro acc h
  rw [cleanPhonesGo_eq]
  exact nodup_dedupAppend _ acc h

theorem phoneShape_formatPhone (ds : List Char) (hlen : ds.length = 10)
    (hdig : ∀ c ∈ ds, c.isDigit = true) : phoneShape (formatPhone ds) = true := by
  rcases ds with _ | ⟨a, _ | ⟨b, _ | ⟨c, _ | ⟨d, _ | ⟨e, _ | ⟨f, _ | ⟨g, _ | ⟨h, _ | ⟨i, _ | ⟨j, t⟩⟩⟩⟩⟩⟩⟩⟩⟩⟩ <;>
    simp only [List.length_cons, List.length_nil] at hlen <;>
    try omega
  · have ht : t = [] := by
      cases t with
      | nil => rfl
      | cons x xs =>
        exfalso
        simp only [List.length_cons] at hlen
        omega
    subst ht
    have ha := hdig a (by simp)
    have hb := hdig b (by simp)
    have hc := hdig c (by simp)
    have hd := hdig d (by simp)
    have he := hdig e (by simp)
    have hf := hdig f (by simp)
    have hg := hdig g (by simp)
    have hh := hdig h (by simp)
    have hi := hdig i (by simp)
    have hj := hdig j (by simp)
    simp [formatPhone, phoneShape, ha, hb, hc, hd, he, hf, hg, hh, hi, hj]

theorem mem_cleaned_phones (ms : List (List Char)) (p : String)
    (h : p ∈ cleaned_phones ms) :
    ∃ q ∈ ms, (q.filter Char.isDigit).length = 10 ∧ p = formatPhone (q.filter Char.isDigit) := by
  unfold cleaned_phones at h
  rw [cleanPhonesGo_eq] at h
  rcases mem_dedupAppend _ [] p h with h' | h'
  · simp at h'
  · rw [List.mem_map] at h'
    obtain ⟨q, hq, rfl⟩ := h'
    rw [List.mem_filter] at hq
    exact ⟨q, hq.1, of_decide_eq_true hq.2, rfl⟩

theorem greedyBraceMatch_append (pre mid : List Char)
    (h1 : '\x7b' ∉ pre) :
    greedyBraceMatch (pre ++ ( '\x7b' :: (mid ++ ['\x7d']))) =
      some ( '\x7b' :: (mid ++ ['\x7d'])) := by
  induction pre with
  | nil =>
    simp only [List.nil_append, greedyBraceMatch]
    rw [if_pos (by simp)]
    simp [upToLastRBrace, List.reverse_append, List.append_eq, List.dropWhile]
  | cons c cs ih =>
    simp only [List.cons_append, greedyBraceMatch]
    rw [if_neg ?_]
    · exact ih (fun hm => h1 (List.mem_cons_of_mem c hm))
    · intro hcon
      apply h1
      rw [← hcon.1]
      exact List.mem_cons_self c cs

theorem scrape_results_eq (env : String → UrlEnv) (urls : List String) :
    (scrape_businesses env urls).1 = urls.filterMap (fun u => (processUrl env u).1) := by
  induction urls with
  | nil => rfl
  | cons u us ih =>
    simp only [scrape_businesses, List.filterMap_cons]
    cases h : (processUrl env u).1 <;> simp [h, ih]

theorem scrape_trace_cons (env : String → UrlEnv) (u : String) (us : List String) :
    (scrape_businesses env (u :: us)).2 = (processUrl env u).2 ++ (scrape_businesses env us).2 := rfl

/-! ## Claim theorems -/

/-- C1: for every input, if the classifier's inference call raises, or no
JSON object can be parsed from the model reply, `classify` returns `false`
(reject); and when a JSON verdict is parsed, the result is accepted if and
only if `is_small_independent` and `is_service_based` hold and
`is_chain_or_franchise` does not. -/
theorem classify_fail_closed_acceptance :
    (is_small_independent_business none = false) ∧
    (∀ text : String, extractJson text = none →
      is_small_independent_business (some text) = false) ∧
    (∀ (text : String) (fields : List (String × Json)) (a b c : Bool),
      extractJson text = some (Json.obj fields) →
      assocGet fields "is_small_independent" = some (Json.bool a) →
      assocGet fields "is_service_based" = some (Json.bool b) →
      assocGet fields "is_chain_or_franchise" = some (Json.bool c) →
      (is_small_independent_business (some text) = true ↔
        a = true ∧ b = true ∧ c = false)) := by
  refine ⟨rfl, ?_, ?_⟩
  · intro text h
    simp [is_small_independent_business, h]
  · intro text fields a b c h h1 h2 h3
    simp only [is_small_independent_business, h, h1, h2, h3, Option.getD_some, jTruthy,
      Bool.and_eq_true, Bool.not_eq_true']
    cases c <;> simp

/-- Witness for C1 at concrete replies: an accepting verdict is accepted,
a reply with no JSON object is rejected, and a raised call is rejected. -/
theorem classify_fail_closed_acceptance_witness :
    is_small_independent_business (some acceptReplyText) = true ∧
    is_small_independent_business (some "no json in this reply") = false ∧
    is_small_independent_business none = false := by
  refine ⟨?_, ?_, classify_fail_closed_acceptance.1⟩
  · exact (classify_fail_closed_acceptance.2.2 acceptReplyText
      [("is_small_independent", Json.bool true), ("is_service_based", Json.bool true),
       ("is_chain_or_franchise", Json.bool false)]
      true true false rfl rfl rfl rfl).mpr ⟨rfl, rfl, rfl⟩
  · exact classify_fail_closed_acceptance.2.1 "no json in this reply" rfl

/-- C10: a parsed verdict object missing any of the three booleans is
rejected: a missing `is_small_independent` or `is_service_based` defaults
to `False`, a missing `is_chain_or_franchise` defaults to `True`, so the
conjunction can never accept. -/
theorem classifier_missing_keys_reject (text : String) (fields : List (String × Json))
    (h : extractJson text = some (Json.obj fields))
    (hmiss : assocGet fields "is_small_independent" = none ∨
             assocGet fields "is_service_based" = none ∨
             assocGet fields "is_chain_or_franchise" = none) :
    is_small_independent_business (some text) = false := by
  rcases hmiss with hm | hm | hm <;>
    simp [is_small_independent_business, h, hm, jTruthy]

/-- Witness for C10: the reply whose object is empty is rejected. -/
theorem classifier_missing_keys_reject_witness :
    is_small_independent_business (some "\x7b\x7d") = false :=
  classifier_missing_keys_reject "\x7b\x7d" [] rfl (Or.inl rfl)

/-- C2 counterexample: the claim says a field present on the model-derived
record is never overwritten by the signal.  The model reply below has
`phone` present (bound to the empty string), yet the merged record's
`phone` is the signal's primary phone, not the model's value: the code
tests truthiness, not presence. -/
theorem merge_keeps_model_value_cex :
    extractJson "\x7b\"phone\": \"\"\x7d" = some (Json.obj [("phone", Json.str "")]) ∧
    fieldPresent (Json.obj [("phone", Json.str "")]) "phone" = true ∧
    jGet (extract_business_info ⟨[], [], some "(555) 111-2222", none⟩ "https://ex.com"
        (some "\x7b\"phone\": \"\"\x7d")) "phone" = some (Json.str "(555) 111-2222") ∧
    some (Json.str "(555) 111-2222") ≠ some (Json.str "") := by
  refine ⟨rfl, rfl, rfl, ?_⟩
  intro h
  simp only [Option.some.injEq, Json.str.injEq] at h
  exact absurd h (by decide)

/-- C2 as amended: in the merge step, a field the model bound to a truthy
(non-null, non-empty) value is kept and never overwritten by the signal;
a field that is missing or bound to a falsy value is filled from the
corresponding `ContactSignals` value when that signal is available; and
`source_url` of the final record always equals the input URL, whatever
the reply was. -/
theorem merge_backfill_precedence (sig : ContactSignals) (url text : String)
    (fields : List (String × Json))
    (hp : extractJson text = some (Json.obj fields)) :
    (∀ v, assocGet fields "phone" = some v → jTruthy v = true →
      jGet (extract_business_info sig url (some text)) "phone" = some v) ∧
    (∀ p, sig.mainPhone = some p → p.isEmpty = false →
      pyFalsy (assocGet fields "phone") = true →
      jGet (extract_business_info sig url (some text)) "phone" = some (Json.str p)) ∧
    (∀ v, assocGet fields "address" = some v → jTruthy v = true →
      jGet (extract_business_info sig url (some text)) "address" = some v) ∧
    (∀ a, sig.mainAddress = some a → a.isEmpty = false →
      pyFalsy (assocGet fields "address") = true →
      jGet (extract_business_info sig url (some text)) "address" = some (Json.str a)) ∧
    (∀ v, assocGet fields "business_email" = some v → jTruthy v = true →
      jGet (extract_business_info sig url (some text)) "business_email" = some v) ∧
    (∀ e es, sig.businessEmails = e :: es →
      pyFalsy (assocGet fields "business_email") = true →
      jGet (extract_business_info sig url (some text)) "business_email" =
        some (Json.str e)) ∧
    (∀ v, assocGet fields "owner_email" = some v → jTruthy v = true →
      jGet (extract_business_info sig url (some text)) "owner_email" = some v) ∧
    (∀ e es, sig.ownerEmails = e :: es →
      pyFalsy (assocGet fields "owner_email") = true →
      jGet (extract_business_info sig url (some text)) "owner_email" = some (Json.str e)) ∧
    (∀ reply : Option String,
      jGet (extract_business_info sig url reply) "source_url" = some (Json.str url)) := by
  have hrec : extract_business_info sig url (some text) =
      Json.obj (mergeFields sig url fields) := by
    simp [extract_business_info, hp]
  have hbase : ∀ k', k' ≠ "source_url" →
      assocGet (assocSet fields "source_url" (Json.str url)) k' = assocGet fields k' :=
    fun k' h => assocGet_assocSet_ne fields "source_url" k' (Json.str url) h
  refine ⟨?_, ?_, ?_, ?_, ?_, ?_, ?_, ?_, ?_⟩
  · intro v hv htr
    rw [hrec]
    show assocGet (mergeFields sig url fields) "phone" = some v
    unfold mergeFields
    rw [assocGet_fillFromOpt_ne _ _ _ _ (by decide)]
    exact fillFromOpt_keep _ _ _ v htr
      (by rw [assocGet_fillFromList_ne _ _ _ _ (by decide),
              assocGet_fillFromList_ne _ _ _ _ (by decide), hbase _ (by decide), hv])
  · intro p hp0 hne hfal
    rw [hrec]
    show assocGet (mergeFields sig url fields) "phone" = some (Json.str p)
    unfold mergeFields
    rw [assocGet_fillFromOpt_ne _ _ _ _ (by decide), hp0]
    exact fillFromOpt_fill _ _ p hne
      (by rw [assocGet_fillFromList_ne _ _ _ _ (by decide),
              assocGet_fillFromList_ne _ _ _ _ (by decide), hbase _ (by decide)]
          exact hfal)
  · intro v hv htr
    rw [hrec]
    show assocGet (mergeFields sig url fields) "address" = some v
    unfold mergeFields
    exact fillFromOpt_keep _ _ _ v htr
      (by rw [assocGet_fillFromOpt_ne _ _ _ _ (by decide),
              assocGet_fillFromList_ne _ _ _ _ (by decide),
              assocGet_fillFromList_ne _ _ _ _ (by decide), hbase _ (by decide), hv])
  · intro a ha0 hne hfal
    rw [hrec]
    show assocGet (mergeFields sig url fields) "address" = some (Json.str a)
    unfold mergeFields
    rw [ha0]
    exact fillFromOpt_fill _ _ a hne
      (by rw [assocGet_fillFromOpt_ne _ _ _ _ (by decide),
              assocGet_fillFromList_ne _ _ _ _ (by decide),
              assocGet_fillFromList_ne _ _ _ _ (by decide), hbase _ (by decide)]
          exact hfal)
  · intro v hv htr
    rw [hrec]
    show assocGet (mergeFields sig url fields) "business_email" = some v
    unfold mergeFields
    rw [assocGet_fillFromOpt_ne _ _ _ _ (by decide),
        assocGet_fillFromOpt_ne _ _ _ _ (by decide),
        assocGet_fillFromList_ne _ _ _ _ (by decide)]
    exact fillFromList_keep _ _ _ v htr (by rw [hbase _ (by decide), hv])
  · intro e es he hfal
    rw [hrec]
    show assocGet (mergeFields sig url fields) "business_email" = some (Json.str e)
    unfold mergeFields
    rw [assocGet_fillFromOpt_ne _ _ _ _ (by decide),
        assocGet_fillFromOpt_ne _ _ _ _ (by decide),
        assocGet_fillFromList_ne _ _ _ _ (by decide), he]
    exact fillFromList_fill _ _ e es (by rw [hbase _ (by decide)]; exact hfal)
  · intro v hv htr
    rw [hrec]
    show assocGet (mergeFields sig url fields) "owner_email" = some v
    unfold mergeFields
    rw [assocGet_fillFromOpt_ne _ _ _ _ (by decide),
        assocGet_fillFromOpt_ne _ _ _ _ (by decide)]
    exact fillFromList_keep _ _ _ v htr
      (by rw [assocGet_fillFromList_ne _ _ _ _ (by decide), hbase _ (by decide), hv])
  · intro e es he hfal
    rw [hrec]
    show assocGet (mergeFields sig url fields) "owner_email" = some (Json.str e)
    unfold mergeFields
    rw [assocGet_fillFromOpt_ne _ _ _ _ (by decide),
        assocGet_fillFromOpt_ne _ _ _ _ (by decide), he]
    exact fillFromList_fill _ _ e es
      (by rw [assocGet_fillFromList_ne _ _ _ _ (by decide), hbase _ (by decide)]
          exact hfal)
  · intro reply
    have hd : jGet (degradedRecord sig url) "source_url" = some (Json.str url) := rfl
    cases reply with
    | none => exact hd
    | some t =>
      cases hj : extractJson t with
      | none =>
        have hre : extract_business_info sig url (some t) = degradedRecord sig url := by
          simp [extract_business_info, hj]
        rw [hre]; exact hd
      | some j =>
        cases j with
        | obj fl =>
          have hro : extract_business_info sig url (some t) =
              Json.obj (mergeFields sig url fl) := by
            simp [extract_business_info, hj]
          rw [hro]
          show assocGet (mergeFields sig url fl) "source_url" = some (Json.str url)
          unfold mergeFields
          rw [assocGet_fillFromOpt_ne _ _ _ _ (by decide),
              assocGet_fillFromOpt_ne _ _ _ _ (by decide),
              assocGet_fillFromList_ne _ _ _ _ (by decide),
              assocGet_fillFromList_ne _ _ _ _ (by decide)]
          exact assocGet_assocSet_self fl "source_url" (Json.str url)
        | null =>
          have hre : extract_business_info sig url (some t) = degradedRecord sig url := by
            simp [extract_business_info, hj]
          rw [hre]; exact hd
        | bool b =>
          have hre : extract_business_info sig url (some t) = degradedRecord sig url := by
            simp [extract_business_info, hj]
          rw [hre]; exact hd
        | str s =>
          have hre : extract_business_info sig url (some t) = degradedRecord sig url := by
            simp [extract_business_info, hj]
          rw [hre]; exact hd
        | num r =>
          have hre : extract_business_info sig url (some t) = degradedRecord sig url := by
            simp [extract_business_info, hj]
          rw [hre]; exact hd
        | arr es =>
          have hre : extract_business_info sig url (some t) = degradedRecord sig url := by
            simp [extract_business_info, hj]
          rw [hre]; exact hd

/-- Witness for the amended C2 at concrete inputs: a truthy model `phone`
is kept, a missing `business_email` is back-filled from the signal, and
`source_url` is the input URL. -/
theorem merge_backfill_precedence_witness :
    jGet (extract_business_info ⟨["info@a.com"], [], some "(555) 111-2222", none⟩
      "https://ex.com" (some "\x7b\"phone\": \"(555) 999-8888\"\x7d")) "phone" =
      some (Json.str "(555) 999-8888") ∧
    jGet (extract_business_info ⟨["info@a.com"], [], some "(555) 111-2222", none⟩
      "https://ex.com" (some "\x7b\"phone\": \"(555) 999-8888\"\x7d")) "business_email" =
      some (Json.str "info@a.com") ∧
    jGet (extract_business_info ⟨["info@a.com"], [], some "(555) 111-2222", none⟩
      "https://ex.com" (some "\x7b\"phone\": \"(555) 999-8888\"\x7d")) "source_url" =
      some (Json.str "https://ex.com") := by
  have h := merge_backfill_precedence ⟨["info@a.com"], [], some "(555) 111-2222", none⟩
    "https://ex.com" "\x7b\"phone\": \"(555) 999-8888\"\x7d"
    [("phone", Json.str "(555) 999-8888")] rfl
  exact ⟨h.1 (Json.str "(555) 999-8888") rfl rfl,
         h.2.2.2.2.2.1 "info@a.com" [] rfl rfl,
         h.2.2.2.2.2.2.2.2 (some "\x7b\"phone\": \"(555) 999-8888\"\x7d")⟩

/-- C3: the structured extraction adapter never raises; when the inference
call fails or no JSON object can be decoded from the reply, it returns the
degraded record holding only `source_url` and the signal-derived contact
fields, every other field absent. -/
theorem adapter_degraded_total (sig : ContactSignals) (url : String) (reply : Option String)
    (hfail : reply = none ∨ ∃ text, reply = some text ∧ extractJson text = none) :
    extract_business_info sig url reply = degradedRecord sig url ∧
    jGet (degradedRecord sig url) "business_name" = none ∧
    jGet (degradedRecord sig url) "source_url" = some (Json.str url) ∧
    jGet (degradedRecord sig url) "business_email" =
      some (optStrJson sig.businessEmails.head?) ∧
    jGet (degradedRecord sig url) "owner_email" = some (optStrJson sig.ownerEmails.head?) ∧
    jGet (degradedRecord sig url) "phone" = some (optStrJson sig.mainPhone) ∧
    jGet (degradedRecord sig url) "address" = some (optStrJson sig.mainAddress) ∧
    (∀ k, k ≠ "source_url" → k ≠ "business_email" → k ≠ "owner_email" → k ≠ "phone" →
      k ≠ "address" → jGet (degradedRecord sig url) k = none) := by
  refine ⟨?_, rfl, rfl, rfl, rfl, rfl, rfl, ?_⟩
  · rcases hfail with rfl | ⟨text, rfl, hj⟩
    · rfl
    · simp [extract_business_info, hj]
  · intro k h1 h2 h3 h4 h5
    simp only [degradedRecord, jGet, assocGet]
    rw [if_neg (fun h => h1 h.symm), if_neg (fun h => h2 h.symm),
        if_neg (fun h => h3 h.symm), if_neg (fun h => h4 h.symm),
        if_neg (fun h => h5 h.symm)]

/-- Witness for C3: a raised inference call with concrete signals yields
exactly the degraded record, whose `business_name` is absent, whose
`source_url` is the URL and whose `phone` is the signal phone. -/
theorem adapter_degraded_total_witness :
    extract_business_info ⟨["info@a.com"], ["bob@a.com"], some "(555) 111-2222", none⟩
      "https://ex.com" none =
      degradedRecord ⟨["info@a.com"], ["bob@a.com"], some "(555) 111-2222", none⟩
        "https://ex.com" ∧
    jGet (degradedRecord ⟨["info@a.com"], ["bob@a.com"], some "(555) 111-2222", none⟩
      "https://ex.com") "business_name" = none ∧
    jGet (degradedRecord ⟨["info@a.com"], ["bob@a.com"], some "(555) 111-2222", none⟩
      "https://ex.com") "source_url" = some (Json.str "https://ex.com") ∧
    jGet (degradedRecord ⟨["info@a.com"], ["bob@a.com"], some "(555) 111-2222", none⟩
      "https://ex.com") "phone" = some (Json.str "(555) 111-2222") ∧
    jGet (degradedRecord ⟨["info@a.com"], ["bob@a.com"], some "(555) 111-2222", none⟩
      "https://ex.com") "business_type" = none := by
  have h := adapter_degraded_total
    ⟨["info@a.com"], ["bob@a.com"], some "(555) 111-2222", none⟩
    "https://ex.com" none (Or.inl rfl)
  exact ⟨h.1, h.2.1, h.2.2.1, h.2.2.2.2.2.1,
         h.2.2.2.2.2.2.2 "business_type" (by decide) (by decide) (by decide) (by decide)
           (by decide)⟩

theorem contains_false_not_mem (l : List Char) (c : Char) (h : l.contains c = false) :
    c ∉ l := by
  intro hm
  have ht : l.contains c = true := List.elem_iff.mpr hm
  rw [ht] at h
  exact Bool.noConfusion h

/-- C4: every validated email is lower-case (no ASCII uppercase letter),
has exactly one `@` splitting it into a local part and a domain, the
domain is at least 4 characters long, holds no path separator, and ends
in a dot followed by an allow-listed TLD; the collection is
duplicate-free; and the three-email corpus of the spec yields exactly
`contact@example.com`. -/
theorem email_validation_properties (cands : List String) :
    (∀ e ∈ unique_emails cands,
      (∀ c ∈ e.data, ¬(65 ≤ c.toNat ∧ c.toNat ≤ 90)) ∧
      (∃ loc dom : List Char, e.data = loc ++ '@' :: dom ∧ '@' ∉ loc ∧ '@' ∉ dom ∧
        4 ≤ dom.length ∧ '/' ∉ dom ∧ '\\' ∉ dom ∧
        validTlds.any (fun t => ( '.' :: t.data).isSuffixOf dom) = true)) ∧
    (unique_emails cands).Nodup ∧
    unique_emails ["foo@bar.png", "a@b.c", "Contact@Example.COM"] =
      ["contact@example.com"] := by
  refine ⟨?_, nodup_dedupAppend _ [] List.nodup_nil, rfl⟩
  intro e he
  have hv : e ∈ valid_emails cands := by
    rcases mem_dedupAppend _ [] e he with h' | h'
    · simp at h'
    · exact h'
  unfold valid_emails at hv
  rw [List.mem_filter] at hv
  obtain ⟨hmem, hval⟩ := hv
  rw [List.mem_map] at hmem
  obtain ⟨c0, _, hnorm⟩ := hmem
  constructor
  · intro c hc
    rw [← hnorm] at hc
    exact noUpper_norm c0 c hc
  · unfold isValidEmail at hval
    simp only [Bool.and_eq_true] at hval
    obtain ⟨⟨⟨⟨h1, h2⟩, h3⟩, h4⟩, hmatch⟩ := hval
    generalize hsp : pySplit '@' e.data = ps at hmatch
    cases ps with
    | nil => exact absurd hsp (pySplit_ne_nil '@' e.data)
    | cons p1 rest =>
      cases rest with
      | nil => simp at hmatch
      | cons p2 rest2 =>
        cases rest2 with
        | nil =>
          simp only [Bool.and_eq_true, decide_eq_true_eq, Bool.not_eq_true'] at hmatch
          obtain ⟨⟨⟨hlen, hsl⟩, hbs⟩, htld⟩ := hmatch
          obtain ⟨hdecomp, hna, hnb⟩ := pySplit_pair '@' e.data p1 p2 hsp
          exact ⟨p1, p2, hdecomp, hna, hnb, hlen,
            contains_false_not_mem p2 '/' hsl, contains_false_not_mem p2 '\\' hbs, htld⟩
        | cons p3 rest3 => simp at hmatch

/-- Witness for C4 at the spec's corpus: the survivor list, its
duplicate-freeness, and the lower-case property of a letter of the
surviving email. -/
theorem email_validation_properties_witness :
    unique_emails ["foo@bar.png", "a@b.c", "Contact@Example.COM"] =
      ["contact@example.com"] ∧
    (unique_emails ["foo@bar.png", "a@b.c", "Contact@Example.COM"]).Nodup ∧
    ¬(65 ≤ 'c'.toNat ∧ 'c'.toNat ≤ 90) := by
  have h := email_validation_properties ["foo@bar.png", "a@b.c", "Contact@Example.COM"]
  refine ⟨h.2.2, ?_, ?_⟩
  · rw [h.2.2]
    exact List.nodup_singleton _
  · exact (h.1 "contact@example.com" (by decide)).1 'c' (by decide)

/-- C5: every phone the extractor outputs has the canonical shape
`(ddd) ddd-dddd`; exactly the matches reducing to 10 digits are kept,
formatted, and deduplicated by formatted string with first-seen order
preserved; and the spec's sample input yields its two sample phones in
order. -/
theorem phone_extraction_properties (ms : List (List Char)) :
    cleaned_phones ms = dedupAppend []
      ((ms.filter (fun p => decide ((p.filter Char.isDigit).length = 10))).map
        (fun p => formatPhone (p.filter Char.isDigit))) ∧
    (∀ p ∈ cleaned_phones ms, phoneShape p = true) ∧
    (cleaned_phones ms).Nodup ∧
    extractPhones "Call 555-123-4567 or (555) 987.6543" =
      ["(555) 123-4567", "(555) 987-6543"] := by
  refine ⟨cleanPhonesGo_eq ms [], ?_, nodup_cleanPhonesGo ms [] List.nodup_nil, rfl⟩
  intro p hp
  obtain ⟨q, _, hq10, rfl⟩ := mem_cleaned_phones ms p hp
  refine phoneShape_formatPhone _ hq10 ?_
  intro c hc
  exact (List.mem_filter.mp hc).2

/-- Witness for C5 at the spec's sample input: the output, its shape on
the first element, and its duplicate-freeness. -/
theorem phone_extraction_properties_witness :
    extractPhones "Call 555-123-4567 or (555) 987.6543" =
      ["(555) 123-4567", "(555) 987-6543"] ∧
    phoneShape "(555) 123-4567" = true ∧
    (cleaned_phones ["555-123-4567".data]).Nodup := by
  refine ⟨(phone_extraction_properties []).2.2.2, ?_,
    (phone_extraction_properties ["555-123-4567".data]).2.2.1⟩
  exact (phone_extraction_properties ["555-123-4567".data]).2.1
    "(555) 123-4567" (by decide)

/-- C6 counterexample: the claim partitions by "local part starts with a
generic prefix".  The validated email `infomax@example.com` has local
part `infomax`, which starts with the generic name `info`, yet the code
classifies it as an owner email (its substring test looks for `info@`,
which does not occur): both lists disagree with the claimed rule. -/
theorem email_role_partition_cex :
    unique_emails ["infomax@example.com"] = ["infomax@example.com"] ∧
    specIsBusinessEmail "infomax@example.com" = true ∧
    business_emails (unique_emails ["infomax@example.com"]) = [] ∧
    owner_emails (unique_emails ["infomax@example.com"]) = ["infomax@example.com"] :=
  ⟨rfl, rfl, rfl, rfl⟩

/-- C6 as amended: a validated email is classified as a business email if
and only if one of the generic markers (`info@`, `contact@`, `sales@`,
`support@`, `hello@`, `admin@`, `service@`, `office@`) occurs as a
substring of the email, and as an owner email otherwise; every validated
email lands in exactly one of the two lists. -/
theorem email_role_partition_marker (cands : List String) (e : String)
    (he : e ∈ unique_emails cands) :
    (e ∈ business_emails (unique_emails cands) ↔ hasGenericMarker e = true) ∧
    (e ∈ owner_emails (unique_emails cands) ↔ hasGenericMarker e = false) ∧
    (e ∈ owner_emails (unique_emails cands) ↔
      e ∉ business_emails (unique_emails cands)) := by
  constructor
  · rw [business_emails, List.mem_filter]
    exact ⟨fun h => h.2, fun h => ⟨he, h⟩⟩
  constructor
  · rw [owner_emails, List.mem_filter]
    constructor
    · intro h
      have := h.2
      simpa using this
    · intro h
      exact ⟨he, by simpa using h⟩
  · rw [owner_emails, business_emails, List.mem_filter, List.mem_filter]
    cases h : hasGenericMarker e <;> simp [he, h]

/-- Witness for the amended C6: the generic email lands only in the
business list, the personal one only in the owner list. -/
theorem email_role_partition_marker_witness :
    (("info@shop.com" ∈ business_emails (unique_emails ["info@shop.com"])) ↔
      hasGenericMarker "info@shop.com" = true) ∧
    (("bob@shop.com" ∈ owner_emails (unique_emails ["bob@shop.com"])) ↔
      hasGenericMarker "bob@shop.com" = false) :=
  ⟨(email_role_partition_marker ["info@shop.com"] "info@shop.com" (by decide)).1,
   (email_role_partition_marker ["bob@shop.com"] "bob@shop.com" (by decide)).2.1⟩

/-- C7 counterexample: a reply holding a complete first JSON object and a
stray closing brace later.  The first balanced top-level object exists and
decodes, but the greedy regex spans to the last closing brace, decoding
fails, and the degraded path is taken — the step does not decode the
first balanced object. -/
theorem json_span_greedy_cex :
    firstBalancedJsonObject "\x7b\"a\": \"1\"\x7d x \x7d".data =
      some (Json.obj [("a", Json.str "1")]) ∧
    extractJson "\x7b\"a\": \"1\"\x7d x \x7d" = none ∧
    is_small_independent_business (some "\x7b\"a\": \"1\"\x7d x \x7d") = false :=
  ⟨rfl, rfl, rfl⟩

/-- C7 as amended: the parsing step decodes the greedy span running from
the first opening brace to the last closing brace of the reply.  When the
reply is brace-free commentary followed by one JSON object text, that
span is the object, so commentary before the object does not affect the
decode; when the regex finds no span, or the span fails to decode, the
degraded path is taken (classifier rejects, adapter degrades). -/
theorem json_span_greedy (pre objtxt : String) (mid : List Char) (j : Json)
    (hpre : '\x7b' ∉ pre.data)
    (hobj : objtxt.data = '\x7b' :: (mid ++ ['\x7d']))
    (hload : jsonLoads objtxt = some j) :
    extractJson (pre ++ objtxt) = some j ∧
    (∀ text : String, extractJson text = none →
      is_small_independent_business (some text) = false) ∧
    (∀ (sig : ContactSignals) (url text : String), extractJson text = none →
      extract_business_info sig url (some text) = degradedRecord sig url) := by
  refine ⟨?_, ?_, ?_⟩
  · unfold extractJson
    have hd : (pre ++ objtxt).data = pre.data ++ ( '\x7b' :: (mid ++ ['\x7d'])) := by
      rw [← hobj]
      rfl
    rw [hd, greedyBraceMatch_append pre.data mid hpre]
    show jsonLoads ⟨ '\x7b' :: (mid ++ ['\x7d'])⟩ = some j
    rw [← hobj]
    exact hload
  · intro text h
    simp [is_small_independent_business, h]
  · intro sig url text h
    simp [extract_business_info, h]

/-- Witness for the amended C7: commentary before a well-formed object
does not prevent its decoding. -/
theorem json_span_greedy_witness :
    extractJson ("Sure, here is the JSON: " ++ "\x7b\"ok\": true\x7d") =
      some (Json.obj [("ok", Json.bool true)]) :=
  (json_span_greedy "Sure, here is the JSON: " "\x7b\"ok\": true\x7d"
    "\"ok\": true".data (Json.obj [("ok", Json.bool true)])
    (by decide) (by decide) rfl).1

/-- C8 counterexample: a URL whose fetch fails traverses its iteration and
reaches the next URL with no pacing delay at all — the loop's `continue`
jumps past `time.sleep(3)`. -/
theorem pacing_delay_skipped_cex :
    (scrape_businesses envFetchFail ["u1"]).2 = [Event.fetchUrl "u1"] ∧
    Event.pacingDelay "u1" ∉ (scrape_businesses envFetchFail ["u1"]).2 :=
  ⟨rfl, by decide⟩

/-- C8 as amended: the pacing delay executes exactly for the URLs that
reach the classification step — fetch returned a truthy page and the
extracted record's `business_name` is truthy — and then regardless of
accept/reject; the two skip paths (failed or empty fetch, falsy name)
proceed to the next URL without the delay. -/
theorem pacing_delay_conditional (env : String → UrlEnv) (url : String) :
    ((env url).fetchResult = none → (processUrl env url).2 = [Event.fetchUrl url]) ∧
    (∀ h, (env url).fetchResult = some h → h.isEmpty = true →
      (processUrl env url).2 = [Event.fetchUrl url]) ∧
    (∀ h, (env url).fetchResult = some h → h.isEmpty = false →
      pyFalsy (jGet (extract_business_info (env url).sig url (env url).extractReply)
        "business_name") = true →
      (processUrl env url).2 = [Event.fetchUrl url, Event.extractCall url]) ∧
    (∀ h, (env url).fetchResult = some h → h.isEmpty = false →
      pyFalsy (jGet (extract_business_info (env url).sig url (env url).extractReply)
        "business_name") = false →
      (processUrl env url).2 = [Event.fetchUrl url, Event.extractCall url,
        Event.classifyCall url, Event.pacingDelay url]) := by
  refine ⟨?_, ?_, ?_, ?_⟩
  · intro h
    simp [processUrl, h]
  · intro h hf he
    simp [processUrl, hf, he]
  · intro h hf he hn
    simp [processUrl, hf, he, hn]
  · intro h hf he hn
    simp [processUrl, hf, he, hn, apply_ite Prod.snd, ite_self]

/-- Witness for the amended C8: a failed fetch yields only the fetch
step; a URL reaching classification ends with the pacing delay. -/
theorem pacing_delay_conditional_witness :
    (processUrl envFetchFail "u1").2 = [Event.fetchUrl "u1"] ∧
    (processUrl env3 "u3").2 = [Event.fetchUrl "u3", Event.extractCall "u3",
      Event.classifyCall "u3", Event.pacingDelay "u3"] :=
  ⟨(pacing_delay_conditional envFetchFail "u1").1 rfl,
   (pacing_delay_conditional env3 "u3").2.2.2 "<html>page3</html>" rfl rfl rfl⟩

/-- C9 counterexample: a URL whose fetch succeeds, whose extracted record
has `business_name` present (bound to the empty string) and whose
classifier reply accepts, yet the orchestrator's output is empty — the
name check tests truthiness, not presence, and the classifier is never
reached. -/
theorem orchestrator_output_cex :
    (envNameEmpty "u").fetchResult = some "<p>x</p>" ∧
    fieldPresent (extract_business_info (envNameEmpty "u").sig "u"
      (envNameEmpty "u").extractReply) "business_name" = true ∧
    is_small_independent_business (envNameEmpty "u").classifyReply = true ∧
    (scrape_businesses envNameEmpty ["u"]).1 = [] :=
  ⟨rfl, rfl, rfl, rfl⟩

/-- C9 as amended: the orchestrator's output is exactly the per-URL
accepted records, in order; a URL contributes a record if and only if its
fetch returned a non-empty page, the extracted record's `business_name`
is truthy, and the classifier accepted; a record with falsy (in
particular absent) `business_name` is never in the output; and the spec's
three-URL scenario yields exactly the record of the third URL. -/
theorem orchestrator_output_exact (env : String → UrlEnv) (urls : List String) :
    (scrape_businesses env urls).1 = urls.filterMap (fun u => (processUrl env u).1) ∧
    (∀ u b, (processUrl env u).1 = some b ↔
      ((∃ h, (env u).fetchResult = some h ∧ h.isEmpty = false) ∧
       b = extract_business_info (env u).sig u (env u).extractReply ∧
       pyFalsy (jGet b "business_name") = false ∧
       is_small_independent_business (env u).classifyReply = true)) ∧
    (∀ b ∈ (scrape_businesses env urls).1, pyFalsy (jGet b "business_name") = false) ∧
    (scrape_businesses env3 ["u1", "u2", "u3"]).1 =
      [Json.obj [("business_name", Json.str "Ace Plumbing"),
        ("source_url", Json.str "u3")]] := by
  have hiff : ∀ u b, (processUrl env u).1 = some b ↔
      ((∃ h, (env u).fetchResult = some h ∧ h.isEmpty = false) ∧
       b = extract_business_info (env u).sig u (env u).extractReply ∧
       pyFalsy (jGet b "business_name") = false ∧
       is_small_independent_business (env u).classifyReply = true) := by
    intro u b
    cases hf : (env u).fetchResult with
    | none => simp [processUrl, hf]
    | some h =>
      by_cases he : h.isEmpty = true
      · simp [processUrl, hf, he]
      · have he' : h.isEmpty = false := by simpa using he
        by_cases hn : pyFalsy (jGet (extract_business_info (env u).sig u
            (env u).extractReply) "business_name") = true
        · constructor
          · intro hsome
            simp [processUrl, hf, he', hn] at hsome
          · rintro ⟨⟨h', hh', hie⟩, rfl, hb, hcl⟩
            rw [hb] at hn
            exact absurd hn (by simp)
        · have hn' : pyFalsy (jGet (extract_business_info (env u).sig u
              (env u).extractReply) "business_name") = false := by simpa using hn
          by_cases hc : is_small_independent_business (env u).classifyReply = true
          · constructor
            · intro hsome
              have hb : extract_business_info (env u).sig u (env u).extractReply = b := by
                have h2 := hsome
                simp [processUrl, hf, he', hn', hc] at h2
                exact h2
              rw [← hb]
              exact ⟨⟨h, rfl, he'⟩, rfl, hn', hc⟩
            · rintro ⟨⟨h', hh', hie⟩, rfl, hb, hcl⟩
              simp [processUrl, hf, he', hn', hcl]
          · constructor
            · intro hsome
              simp [processUrl, hf, he', hn', hc] at hsome
            · rintro ⟨⟨h', hh', hie⟩, rfl, hb, hcl⟩
              exact absurd hcl hc
  refine ⟨scrape_results_eq env urls, hiff, ?_, rfl⟩
  intro b hb
  rw [scrape_results_eq env urls, List.mem_filterMap] at hb
  obtain ⟨u, _, hu⟩ := hb
  exact ((hiff u b).mp hu).2.2.1

/-- Witness for the amended C9: the three-URL scenario's output and the
truthiness of the surviving record's name. -/
theorem orchestrator_output_exact_witness :
    (scrape_businesses env3 ["u1", "u2", "u3"]).1 =
      [Json.obj [("business_name", Json.str "Ace Plumbing"),
        ("source_url", Json.str "u3")]] ∧
    pyFalsy (jGet (Json.obj [("business_name", Json.str "Ace Plumbing"),
      ("source_url", Json.str "u3")]) "business_name") = false := by
  have h := orchestrator_output_exact env3 ["u1", "u2", "u3"]
  refine ⟨h.2.2.2, ?_⟩
  refine h.2.2.1 _ ?_
  rw [h.2.2.2]
  exact List.mem_singleton_self _
